import Mathlib

/-
  Verification of the PDF-to-structured-data extraction pipeline
  (`pdf_processor.py`, class `PDFToStructuredData`).

  The Python code is shallowly embedded over `Str := List Char` (Python `str`
  values as character lists).  External effects are modelled as explicit
  oracles passed to the embedded functions:
    * the PDF page reader (`extract_text_from_pdf`) takes the page contents
      (or a read failure) as an argument;
    * the OpenAI chat completion call takes an `LlmOutcome` argument: the
      reply text of the model, or the message of a raised transport exception;
    * file writes are recorded in an `Artifact` trace returned alongside the
      result (every `open(...).write`/`json.dump`/`to_csv`/`to_excel` in the
      source appends one artifact).
  Python exceptions escaping a function are modelled as `Except.error`;
  returned dictionaries are modelled as inductive result values mirroring the
  exact key sets the source constructs.
-/

abbrev Str := List Char

/-- Python `str.strip()` whitespace: the characters for which `str.isspace()`
    holds — ASCII whitespace `\t\n\x0b\x0c\r` and space, the information
    separators `\x1c`-`\x1f`, next-line `\x85`, no-break space `\xa0`, Ogham
    space `\x1680`, the Unicode space separators `\x2000`-`\x200a`, line and
    paragraph separators `\x2028`/`\x2029`, narrow no-break space `\x202f`,
    medium mathematical space `\x205f`, and ideographic space `\x3000`. -/
def pyIsSpace (c : Char) : Bool :=
  (0x09 ≤ c.toNat ∧ c.toNat ≤ 0x0d) ∨ (0x1c ≤ c.toNat ∧ c.toNat ≤ 0x20) ∨
  c.toNat = 0x85 ∨ c.toNat = 0xa0 ∨ c.toNat = 0x1680 ∨
  (0x2000 ≤ c.toNat ∧ c.toNat ≤ 0x200a) ∨ c.toNat = 0x2028 ∨ c.toNat = 0x2029 ∨
  c.toNat = 0x202f ∨ c.toNat = 0x205f ∨ c.toNat = 0x3000

/-- Python `s.strip()`. -/
def pyStrip (s : Str) : Str :=
  ((s.dropWhile pyIsSpace).reverse.dropWhile pyIsSpace).reverse

/-- Python `s.startswith(p)`. -/
def pyStartsWith (s p : Str) : Bool := p.isPrefixOf s

/-- Python `s.endswith(p)`. -/
def pyEndsWith (s p : Str) : Bool := p.isSuffixOf s

/-- Python slice `s[a:b]` for `0 ≤ a`, `0 ≤ b`. -/
def pySlice (s : Str) (a b : Nat) : Str := (s.take b).drop a

/-- Scan positions `a + k - 1, …, a + 0` (downwards) for the last index whose
    character is `c`.  Helper for Python `str.rfind`. -/
def lastHit (s : Str) (c : Char) (a : Nat) : Nat → Option Nat
  | 0 => none
  | k + 1 => if s.getD (a + k) ' ' = c then some (a + k) else lastHit s c a k

/-- Python `s.rfind(c, a, b)`: highest index of `c` in `s[a:b]` (as an index
    into `s`), or `-1` if absent. -/
def pyRfind (s : Str) (c : Char) (a b : Nat) : Int :=
  match lastHit s c a (min b s.length - a) with
  | some p => (p : Int)
  | none => -1

/-- The adjusted end boundary computed by `chunk_text`'s loop body
    (`pdf_processor.py` lines 81-90): propose `start + chunk_size`, then move
    to just after the last newline in the window if that newline lies strictly
    beyond `start + overlap`. -/
def codeEnd (text : Str) (chunk_size overlap start : Nat) : Nat :=
  if ((start + overlap : Nat) : Int) < pyRfind text '\n' start (start + chunk_size) then
    (pyRfind text '\n' start (start + chunk_size)).toNat + 1
  else start + chunk_size

/-- The `while start < len(text)` loop of `chunk_text` (lines 80-93), written
    as direct recursion (the source appends to a `chunks` accumulator; the
    returned list is identical).  `fuel` bounds the number of iterations;
    `none` models non-termination of the Python loop within that bound. -/
def chunkLoop (text : Str) (chunk_size overlap : Nat) : Nat → Nat → Option (List Str)
  | 0, _ => none
  | fuel + 1, start =>
    if start < text.length then
      if text.length ≤ start + chunk_size then
        some [text.drop start]
      else
        match chunkLoop text chunk_size overlap fuel (codeEnd text chunk_size overlap start - overlap) with
        | none => none
        | some rest => some (pySlice text start (codeEnd text chunk_size overlap start) :: rest)
    else
      some []

/-- `PDFToStructuredData.chunk_text` (lines 62-95).  `text.length + 1` units
    of fuel are enough whenever `overlap < chunk_size` (proved below); `none`
    models divergence of the source loop. -/
def chunk_text (text : Str) (chunk_size overlap : Nat) : Option (List Str) :=
  if text.length ≤ chunk_size then some [text]
  else chunkLoop text chunk_size overlap (text.length + 1) 0

/-- Total wrapper used by `process_pdf`, which always calls `chunk_text` with
    the defaults `chunk_size = 8000`, `overlap = 500` where termination holds. -/
def chunk_textRun (text : Str) (chunk_size overlap : Nat) : List Str :=
  (chunk_text text chunk_size overlap).getD []

/-- Values produced by Python's `json.loads`.  Integer literals become `num`;
    literals with a fraction or exponent become Python floats, kept here in
    exact mantissa/exponent form `m * 10 ^ e` (`numF m e`) since the pipeline
    never computes with them.  The constants `NaN`, `Infinity` and
    `-Infinity`, which `json.loads` accepts by default as the floats
    `nan`/`inf`/`-inf`, become `nanV` and `infV`. -/
inductive Json where
  | null
  | bool (b : Bool)
  | num (n : Int)
  | numF (m : Int) (e : Int)
  | nanV
  | infV (neg : Bool)
  | str (s : Str)
  | arr (elems : List Json)
  | obj (fields : List (Str × Json))

/-- Python `dict` assignment `d[k] = v`: an existing key keeps its insertion
    position and gets the new value; a fresh key is appended. -/
def setField (fields : List (Str × Json)) (k : Str) (v : Json) : List (Str × Json) :=
  if fields.any (fun p => p.1 = k) then
    fields.map (fun p => if p.1 = k then (k, v) else p)
  else fields ++ [(k, v)]

/-- Python `dict` lookup (keys are unique in dicts built by `setField`). -/
def getField (fields : List (Str × Json)) (k : Str) : Option Json :=
  (fields.find? (fun p => p.1 = k)).map (fun p => p.2)

def isObj : Json → Bool
  | .obj _ => true
  | _ => false

/-- JSON insignificant whitespace. -/
def skipWs : Str → Str
  | [] => []
  | c :: r => if c = ' ' ∨ c = '\t' ∨ c = '\n' ∨ c = '\r' then skipWs r else c :: r

def takeDigits (s : Str) : Str × Str := (s.takeWhile Char.isDigit, s.dropWhile Char.isDigit)

def digitsToNat (ds : Str) : Nat := ds.foldl (fun acc c => acc * 10 + (c.toNat - 48)) 0

/-- Exponent part of a JSON number, if syntactically present. -/
def parseExp (s : Str) : Bool × Int × Str :=
  match s with
  | [] => (false, 0, [])
  | c :: r =>
    if c = 'e' ∨ c = 'E' then
      let p : Int × Str := match r with
        | '+' :: rr => (1, rr)
        | '-' :: rr => (-1, rr)
        | _ => (1, r)
      let (ds, r2) := takeDigits p.2
      if ds = [] then (false, 0, s) else (true, p.1 * digitsToNat ds, r2)
    else (false, 0, s)

/-- Unsigned JSON number (the `(0|[1-9]\d*)(\.\d+)?([eE][-+]?\d+)?` regex of
    Python's json scanner): greedy, leading zeros stop the integer part. -/
def parseNumCore (s : Str) : Except Str (Json × Str) :=
  match s with
  | [] => .error "Expecting value".data
  | c :: rest =>
    if ¬ c.isDigit then .error "Expecting value".data
    else
      let ipr : Str × Str := if c = '0' then (['0'], rest) else takeDigits s
      let n : Nat := digitsToNat ipr.1
      let fdr : Str × Str := match ipr.2 with
        | '.' :: r =>
          let (ds, rr) := takeDigits r
          if ds = [] then ([], ipr.2) else (ds, rr)
        | _ => ([], ipr.2)
      let er := parseExp fdr.2
      if fdr.1 = [] ∧ er.1 = false then .ok (.num n, ipr.2)
      else .ok (.numF ((n : Int) * (10 ^ fdr.1.length) + digitsToNat fdr.1) (er.2.1 - fdr.1.length), er.2.2)

def negJson : Json → Json
  | .num n => .num (-n)
  | .numF m e => .numF (-m) e
  | j => j

def parseNum (s : Str) : Except Str (Json × Str) :=
  match s with
  | '-' :: s1 =>
    match parseNumCore s1 with
    | .error e => .error e
    | .ok (j, r) => .ok (negJson j, r)
  | _ => parseNumCore s

def hexVal (c : Char) : Option Nat :=
  if '0' ≤ c ∧ c ≤ '9' then some (c.toNat - 48)
  else if 'a' ≤ c ∧ c ≤ 'f' then some (c.toNat - 87)
  else if 'A' ≤ c ∧ c ≤ 'F' then some (c.toNat - 55)
  else none

def escMap (c : Char) : Option Char :=
  if c = '"' then some '"'
  else if c = '\\' then some '\\'
  else if c = '/' then some '/'
  else if c = 'b' then some '\x08'
  else if c = 'f' then some '\x0c'
  else if c = 'n' then some '\n'
  else if c = 'r' then some '\r'
  else if c = 't' then some '\t'
  else none

/-- Body of a JSON string after the opening quote: content and remainder past
    the closing quote.  Python's json rejects raw control characters and
    unknown escapes.  (`\uXXXX` surrogate pairing is simplified to a single
    code-unit decode; the pipeline's claims never exercise surrogates.) -/
def parseStringBody : Nat → Str → Option (Str × Str)
  | 0, _ => none
  | _, [] => none
  | fuel + 1, c :: rest =>
    if c = '"' then some ([], rest)
    else if c = '\\' then
      match rest with
      | [] => none
      | e :: r2 =>
        if e = 'u' then
          match r2 with
          | h1 :: h2 :: h3 :: h4 :: r3 =>
            match hexVal h1, hexVal h2, hexVal h3, hexVal h4 with
            | some a, some b, some c3, some d =>
              match parseStringBody fuel r3 with
              | some (cs, rest2) => some (Char.ofNat (((a * 16 + b) * 16 + c3) * 16 + d) :: cs, rest2)
              | none => none
            | _, _, _, _ => none
          | _ => none
        else
          match escMap e with
          | some ch =>
            match parseStringBody fuel r2 with
            | some (cs, rest2) => some (ch :: cs, rest2)
            | none => none
          | none => none
    else if c.toNat < 32 then none
    else
      match parseStringBody fuel rest with
      | some (cs, rest2) => some (c :: cs, rest2)
      | none => none

mutual

/-- One JSON value starting at the head of the input (no leading whitespace),
    returning the value and the unconsumed remainder. -/
def parseVal : Nat → Str → Except Str (Json × Str)
  | 0, _ => .error "json depth limit".data
  | fuel + 1, s =>
    match s with
    | [] => .error "Expecting value".data
    | c :: rest =>
      if c = '\x7b' then
        match parseFields fuel (skipWs rest) [] true with
        | .error e => .error e
        | .ok (fs, r) => .ok (.obj fs, r)
      else if c = '[' then
        match parseElems fuel (skipWs rest) [] true with
        | .error e => .error e
        | .ok (vs, r) => .ok (.arr vs, r)
      else if c = '"' then
        match parseStringBody (fuel + 1) rest with
        | some (cs, r2) => .ok (.str cs, r2)
        | none => .error "Unterminated string".data
      else if c = 't' then
        if rest.take 3 = "rue".data then .ok (.bool true, rest.drop 3) else .error "Expecting value".data
      else if c = 'f' then
        if rest.take 4 = "alse".data then .ok (.bool false, rest.drop 4) else .error "Expecting value".data
      else if c = 'n' then
        if rest.take 3 = "ull".data then .ok (.null, rest.drop 3) else .error "Expecting value".data
      else if c = 'N' then
        if rest.take 2 = "aN".data then .ok (.nanV, rest.drop 2) else .error "Expecting value".data
      else if c = 'I' then
        if rest.take 7 = "nfinity".data then .ok (.infV false, rest.drop 7)
        else .error "Expecting value".data
      else if c = '-' ∨ c.isDigit then
        match parseNum s with
        | .ok r => .ok r
        | .error e =>
          if pyStartsWith s "-Infinity".data then .ok (.infV true, s.drop 9) else .error e
      else .error "Expecting value".data

/-- Elements of a JSON array after `[` (input pre-stripped of whitespace). -/
def parseElems : Nat → Str → List Json → Bool → Except Str (List Json × Str)
  | 0, _, _, _ => .error "json depth limit".data
  | fuel + 1, s, acc, first =>
    match s with
    | ']' :: r =>
      if first then .ok (acc, r)
      else .error "Expecting value".data
    | _ =>
      match parseVal fuel s with
      | .error e => .error e
      | .ok (v, r1) =>
        match skipWs r1 with
        | ',' :: r2 => parseElems fuel (skipWs r2) (acc ++ [v]) false
        | ']' :: r2 => .ok (acc ++ [v], r2)
        | _ => .error "Expecting delimiter".data

/-- Members of a JSON object after the opening brace (input pre-stripped);
    duplicate keys behave like Python dict assignment (last value wins). -/
def parseFields : Nat → Str → List (Str × Json) → Bool → Except Str (List (Str × Json) × Str)
  | 0, _, _, _ => .error "json depth limit".data
  | fuel + 1, s, acc, first =>
    match s with
    | '\x7d' :: r =>
      if first then .ok (acc, r)
      else .error "Expecting property name".data
    | '"' :: r =>
      match parseStringBody (fuel + 1) r with
      | none => .error "Unterminated string".data
      | some (k, r1) =>
        match skipWs r1 with
        | ':' :: r2 =>
          match parseVal fuel (skipWs r2) with
          | .error e => .error e
          | .ok (v, r3) =>
            match skipWs r3 with
            | ',' :: r4 => parseFields fuel (skipWs r4) (setField acc k v) false
            | '\x7d' :: r4 => .ok (setField acc k v, r4)
            | _ => .error "Expecting delimiter".data
        | _ => .error "Expecting colon".data
    | _ => .error "Expecting property name".data

end

/-- Python `json.loads` on the pipeline's candidate strings: a whole-input
    parse; `.error` models `json.JSONDecodeError`.  The fuel bound
    `4 * length + 8` exceeds any possible recursion depth for the input. -/
def json_loads (s : Str) : Except Str Json :=
  match parseVal (4 * s.length + 8) (skipWs s) with
  | .error e => .error e
  | .ok (v, rest) => if skipWs rest = [] then .ok v else .error "Extra data".data

/-- First index at which `pat` occurs in the scanned suffix (offset `i` tracks
    the absolute position).  Helper for the `re.search` model. -/
def findSubAux (pat : Str) : Str → Nat → Option Nat
  | [], i => if pat.isPrefixOf [] then some i else none
  | c :: r, i => if pat.isPrefixOf (c :: r) then some i else findSubAux pat r (i + 1)

/-- Model of the `re.search` for a lazily-matched json code fence in
    `process_text_chunk_with_llm` (with `re.DOTALL`) from
    `process_text_chunk_with_llm` (line 174): the interior between the first
    occurrence of the opening fence and the first closing fence after it.
    (Leftmost match plus a lazy `(.*?)` group is exactly first-open /
    first-close-after; a later opening fence cannot match when an earlier one
    has some closing fence after it.) -/
def extractFenced (s : Str) : Option Str :=
  match findSubAux "```json\n".data s 0 with
  | none => none
  | some i =>
    let rest := s.drop (i + 8)
    match findSubAux "\n```".data rest 0 with
    | none => none
    | some j => some (rest.take j)

/-- The bracket-coercion step of `process_text_chunk_with_llm`
    (lines 183-186), including the source's re-stripping on each test. -/
def coerce (json_str0 : Str) : Str :=
  let json_str1 :=
    if ¬ pyStartsWith (pyStrip json_str0) "[".data then "[".data ++ pyStrip json_str0
    else json_str0
  if ¬ pyEndsWith (pyStrip json_str1) "]".data then pyStrip json_str1 ++ "]".data
  else json_str1

/-- The exact string handed to `json.loads` for a given raw LLM reply
    (lines 174-186): fenced-block interior if present, else the whole reply;
    then bracket coercion. -/
def candidate (llm_response : Str) : Str :=
  match extractFenced llm_response with
  | some json_str => coerce json_str
  | none => coerce llm_response

/-- Outcome of the `self.client.chat.completions.create(...)` call, supplied
    as an oracle: the reply content, or the message of a raised exception. -/
inductive LlmOutcome where
  | reply (content : Str)
  | apiError (msg : Str)

/-- The dictionaries returned by `process_text_chunk_with_llm`, by key set:
    `\x7b"error"\x7d`, `\x7b"error", "llm_raw_response"\x7d`, and
    `\x7b"success", "items", "llm_raw_response"\x7d`. -/
inductive ChunkResult where
  | errorOnly (msg : Str)
  | errorRaw (msg : Str) (llm_raw_response : Str)
  | success (items : Json) (llm_raw_response : Str)

/-- `"error" in chunk_result` (tested at line 299). -/
def hasError : ChunkResult → Bool
  | .errorOnly _ => true
  | .errorRaw _ _ => true
  | .success _ _ => false

/-- The records a chunk result contributes in the aggregation loop
    (lines 299-304): skipped on error, appended when `items` is a list. -/
def itemsOf : ChunkResult → List Json
  | .success (.arr l) _ => l
  | _ => []

def natStr (n : Nat) : Str := Nat.toDigits 10 n

def noKeyMsg : Str := "No API key available for LLM processing".data

def emptyChunkMsg : Str := "Empty text chunk".data

def apiErrMsg (chunk_num : Nat) (e : Str) : Str :=
  "Error during API call for chunk ".data ++ natStr chunk_num ++ ": ".data ++ e

def parseErrMsg (chunk_num : Nat) (e : Str) : Str :=
  "Failed to parse JSON from LLM response for chunk ".data ++ natStr chunk_num ++ ": ".data ++ e

/-- `PDFToStructuredData.process_text_chunk_with_llm` (lines 97-203).
    `has_api_key` models the truthiness of `self.api_key`; `llm` is the
    completion-call oracle.  The second component records whether the API call
    was reached (line 159).  A `None` message content or other non-decode
    exception inside the inner `try` is caught by the outer
    `except Exception` (line 202), i.e. by the `apiError` branch. -/
def process_text_chunk_with_llm (has_api_key : Bool) (chunk pdf_name : Str)
    (chunk_num total_chunks : Nat) (llm : LlmOutcome) : ChunkResult × Bool :=
  if ¬ has_api_key then (.errorOnly noKeyMsg, false)
  else if pyStrip chunk = [] then (.errorOnly emptyChunkMsg, false)
  else
    match llm with
    | .apiError e => (.errorOnly (apiErrMsg chunk_num e), true)
    | .reply llm_response =>
      match json_loads (candidate llm_response) with
      | .ok items => (.success items llm_response, true)
      | .error e => (.errorRaw (parseErrMsg chunk_num e) llm_response, true)

/-- The response-parsing tail of `process_text_chunk_with_llm` (lines
    188-200) applied to candidate string `s` for raw reply `raw`: success with
    the parsed items, or the parse-failure dictionary. -/
def parseOutcome (chunk_num : Nat) (raw s : Str) : ChunkResult × Bool :=
  match json_loads s with
  | .ok items => (.success items raw, true)
  | .error e => (.errorRaw (parseErrMsg chunk_num e) raw, true)

/-- `PDFToStructuredData.extract_text_from_pdf` (lines 39-60).  The oracle
    gives the page texts; `none` (whole document, or any single page) models a
    raised exception, which the source catches, discarding any partially
    accumulated text and returning `""`. -/
def extract_text_from_pdf (pages : Option (List (Option Str))) : Str :=
  match pages with
  | none => []
  | some ps =>
    if ps.all Option.isSome then (ps.map (fun p => p.getD [] ++ ['\n'])).flatten
    else []

/-- One file written during a run, with its logical kind and content
    (paths are determined by `pdf_name` and the timestamp; content is what the
    claims inspect). -/
inductive Artifact where
  | extractedText (content : Str)
  | chunkResultFile (chunk_num : Nat) (content : ChunkResult)
  | errorFile (msg : Str) (chunk_results : List ChunkResult)
  | structuredJson (items : List Json) (source : Str) (extracted_chunks total_items : Nat)
  | csv (items : List Json)
  | excel (items : List Json)

/-- `PDFToStructuredData.save_structured_data` (lines 216-249): always the
    canonical JSON artifact; CSV and Excel only when the item list is
    non-empty. -/
def save_structured_data (items : List Json) (source : Str)
    (extracted_chunks total_items : Nat) : List Artifact :=
  [.structuredJson items source extracted_chunks total_items] ++
    (if items.isEmpty then [] else [.csv items, .excel items])

/-- The dictionaries returned by `process_pdf`, by key set:
    extraction failure `\x7b"error"\x7d`, total-extraction failure
    `\x7b"error", "text_path", "error_path"\x7d`, and the success dictionary
    (lines 339-345) whose `structured_data` carries the id-assigned items and
    the metadata fields. -/
inductive PdfResult where
  | extractError (msg : Str)
  | noItemsError (msg : Str)
  | success (items : List Json) (source : Str) (extracted_chunks total_items : Nat)
      (output_files : List Artifact)

def extractErrMsg (pdf_name : Str) : Str := "Failed to extract text from ".data ++ pdf_name

def noItemsMsg : Str := "Failed to extract any items from the PDF".data

def typeErrMsg : Str := "TypeError: item does not support item assignment".data

/-- The id-assignment loop `for idx, item in enumerate(all_items, 1):
    item[\"id\"] = idx` (lines 315-316), starting at index `idx`.  Assigning
    into a non-dict raises `TypeError` (Python's message text varies with the
    item's type; a single message stands for all of them). -/
def assignIdsFrom : Nat → List Json → Except Str (List Json)
  | _, [] => .ok []
  | idx, .obj fields :: rest =>
    match assignIdsFrom (idx + 1) rest with
    | .ok out => .ok (.obj (setField fields "id".data (.num (Int.ofNat idx))) :: out)
    | .error e => .error e
  | _, _ :: _ => .error typeErrMsg

/-- `item[\"id\"] = idx` on a single item when it is a dict (identity
    otherwise; `assignIdsFrom` raises in that case instead). -/
def setItemId (j : Json) (idx : Nat) : Json :=
  match j with
  | .obj fields => .obj (setField fields "id".data (.num (Int.ofNat idx)))
  | _ => j

/-- Spec-side description of id assignment: every record's `id` becomes its
    1-based position in the merged order. -/
def setIdsFrom (n : Nat) : List Json → List Json
  | [] => []
  | j :: rest => setItemId j n :: setIdsFrom (n + 1) rest

/-- The `id` field of an aggregated record. -/
def getId (j : Json) : Option Json :=
  match j with
  | .obj fields => getField fields "id".data
  | _ => none

/-- The per-chunk loop of `process_pdf` (lines 288-304): each chunk `i`
    (1-based) is processed with the LLM oracle for that chunk number. -/
def chunk_results (has_api_key : Bool) (pdf_name : Str) (chunks : List Str)
    (llm : Nat → LlmOutcome) : List ChunkResult :=
  chunks.enum.map (fun p =>
    (process_text_chunk_with_llm has_api_key p.2 pdf_name (p.1 + 1) chunks.length
      (llm (p.1 + 1))).1)

/-- `text = self.extract_text_from_pdf(pdf_path)` (line 270). -/
def run_text (pages : Option (List (Option Str))) : Str := extract_text_from_pdf pages

/-- `chunks = self.chunk_text(text)` (line 281), with the default
    `chunk_size = 8000`, `overlap = 500`. -/
def run_chunks (pages : Option (List (Option Str))) : List Str :=
  chunk_textRun (run_text pages) 8000 500

/-- `all_chunk_results` after the loop (line 286-292). -/
def run_results (has_api_key : Bool) (pdf_name : Str) (pages : Option (List (Option Str)))
    (llm : Nat → LlmOutcome) : List ChunkResult :=
  chunk_results has_api_key pdf_name (run_chunks pages) llm

/-- `all_items` after the loop (lines 285-304): records of successful chunks
    in chunk order, in their original in-chunk order. -/
def run_merged (has_api_key : Bool) (pdf_name : Str) (pages : Option (List (Option Str)))
    (llm : Nat → LlmOutcome) : List Json :=
  ((run_results has_api_key pdf_name pages llm).map itemsOf).flatten

/-- `PDFToStructuredData.process_pdf` (lines 251-345).  Returns the result of
    the call (`Except.error` = an exception escapes `process_pdf`) together
    with the trace of files written before returning/raising.  Directory
    creation (lines 265-266) writes no file.  File writes themselves are
    modelled as succeeding; see the per-claim notes. -/
def process_pdf (has_api_key : Bool) (pdf_name : Str)
    (pages : Option (List (Option Str))) (llm : Nat → LlmOutcome) :
    Except Str PdfResult × List Artifact :=
  let text := run_text pages
  if pyStrip text = [] then
    (.ok (.extractError (extractErrMsg pdf_name)), [])
  else
    let chunks := run_chunks pages
    let results := chunk_results has_api_key pdf_name chunks llm
    let diagArts := results.enum.map (fun p => Artifact.chunkResultFile (p.1 + 1) p.2)
    let all_items := (results.map itemsOf).flatten
    let arts := Artifact.extractedText text :: diagArts
    if all_items.isEmpty then
      (.ok (.noItemsError noItemsMsg), arts ++ [.errorFile noItemsMsg results])
    else
      match assignIdsFrom 1 all_items with
      | .error e => (.error e, arts)
      | .ok items =>
        let output_files := save_structured_data items pdf_name chunks.length all_items.length
        (.ok (.success items pdf_name chunks.length all_items.length output_files),
         arts ++ output_files)

/-- The overlap relation between adjacent chunks: the last `ov` characters of
    the earlier chunk are byte-identical to the first `ov` characters of the
    later one (both being at least `ov` long). -/
def AdjOv (ov : Nat) (a b : Str) : Prop :=
  ov ≤ a.length ∧ ov ≤ b.length ∧ a.drop (a.length - ov) = b.take ov

/-- Overlap-removing concatenation: the first chunk followed by every later
    chunk minus its first `ov` characters. -/
def glue (ov : Nat) : List Str → Str
  | [] => []
  | c :: rest => c ++ (rest.map (fun s => s.drop ov)).flatten

/-- The shape of a chunk list produced by the loop beginning at offset
    `start`: all but the final chunk run from their start offset to the
    `codeEnd` boundary, the next start is `codeEnd - overlap`, and the final
    chunk is `text[start:]`.  (Derived from the source loop; used to relate
    the loop's output to the claims.) -/
inductive ChunksFrom (text : Str) (chunk_size overlap : Nat) : Nat → List Str → Prop where
  | last (start : Nat) (h1 : start < text.length) (h2 : text.length ≤ start + chunk_size) :
      ChunksFrom text chunk_size overlap start [text.drop start]
  | step (start : Nat) (rest : List Str) (h1 : start + chunk_size < text.length)
      (h2 : ChunksFrom text chunk_size overlap
              (codeEnd text chunk_size overlap start - overlap) rest) :
      ChunksFrom text chunk_size overlap start
        (pySlice text start (codeEnd text chunk_size overlap start) :: rest)

/-- Spec-side: the last line-break position in the window
    `[start, start + chunk_size)` lying strictly beyond `start + overlap`
    (an explicit filtered index range, following the spec's description). -/
def specLastBreak (text : Str) (chunk_size overlap start : Nat) : Option Nat :=
  ((List.range' (start + overlap + 1) (chunk_size - overlap - 1)).filter
    (fun p => text.getD p ' ' = '\n')).getLast?

/-- Spec-side boundary: just after that line-break when one exists, otherwise
    the raw length-based boundary `start + chunk_size`. -/
def specEnd (text : Str) (chunk_size overlap start : Nat) : Nat :=
  match specLastBreak text chunk_size overlap start with
  | some p => p + 1
  | none => start + chunk_size

/-- The chunk shape described by the spec: identical to `ChunksFrom` except
    that the boundary is the spec's `specEnd`. -/
inductive ChunksFromSpec (text : Str) (chunk_size overlap : Nat) : Nat → List Str → Prop where
  | last (start : Nat) (h1 : start < text.length) (h2 : text.length ≤ start + chunk_size) :
      ChunksFromSpec text chunk_size overlap start [text.drop start]
  | step (start : Nat) (rest : List Str) (h1 : start + chunk_size < text.length)
      (h2 : ChunksFromSpec text chunk_size overlap
              (specEnd text chunk_size overlap start - overlap) rest) :
      ChunksFromSpec text chunk_size overlap start
        (pySlice text start (specEnd text chunk_size overlap start) :: rest)

/- ----------------------------------------------------------------- -/
/- Proofs.                                                           -/
/- ----------------------------------------------------------------- -/

example : candidate "\x7b\"product_name\":\"Widget\"\x7d".data =
    "[\x7b\"product_name\":\"Widget\"\x7d]".data := by rfl

example :
    process_text_chunk_with_llm true "x".data "a.pdf".data 1 1
      (.reply "\x7b\"product_name\":\"Widget\"\x7d".data) =
    (.success (.arr [.obj [("product_name".data, .str "Widget".data)]])
      "\x7b\"product_name\":\"Widget\"\x7d".data, true) := by rfl

example :
    process_pdf true "a.pdf".data (some [some "x".data]) (fun _ => .reply "[1]".data) =
    (.error typeErrMsg,
     [.extractedText "x\n".data,
      .chunkResultFile 1 (.success (.arr [.num 1]) "[1]".data)]) := by rfl

example :
    process_pdf true "a.pdf".data (some [some "x".data])
      (fun _ => .reply "[\x7b\"n\": \"w\"\x7d]".data) =
    (.ok (.success [.obj [("n".data, .str "w".data), ("id".data, .num 1)]] "a.pdf".data 1 1
       [.structuredJson [.obj [("n".data, .str "w".data), ("id".data, .num 1)]] "a.pdf".data 1 1,
        .csv [.obj [("n".data, .str "w".data), ("id".data, .num 1)]],
        .excel [.obj [("n".data, .str "w".data), ("id".data, .num 1)]]]),
     [.extractedText "x\n".data,
      .chunkResultFile 1 (.success (.arr [.obj [("n".data, .str "w".data)]])
        "[\x7b\"n\": \"w\"\x7d]".data),
      .structuredJson [.obj [("n".data, .str "w".data), ("id".data, .num 1)]] "a.pdf".data 1 1,
      .csv [.obj [("n".data, .str "w".data), ("id".data, .num 1)]],
      .excel [.obj [("n".data, .str "w".data), ("id".data, .num 1)]]]) := by rfl

example : json_loads "[1, 2]".data = .ok (.arr [.num 1, .num 2]) := by rfl

example : json_loads " [\"a\", -2.5, true, null] ".data =
    .ok (.arr [.str "a".data, .numF (-25) (-1), .bool true, .null]) := by rfl

example : json_loads "[\x7b\"a\": 1, \"b\": \x7b\x7d\x7d]".data =
    .ok (.arr [.obj [("a".data, .num 1), ("b".data, .obj [])]]) := by rfl

example : json_loads "[1,]".data = .error "Expecting value".data := by rfl

example : json_loads "not json".data = .error "Expecting value".data := by rfl

example : json_loads "[1] tail".data = .error "Extra data".data := by rfl

example : json_loads "[\"a\\nb\"]".data = .ok (.arr [.str "a\nb".data]) := by rfl

-- Sanity checks on concrete inputs (cross-checked against the Python code).
example : chunk_text "abcdefghij".data 4 2 =
    some ["abcd".data, "cdef".data, "efgh".data, "ghij".data] := by decide

example : chunk_text "ab".data 4 2 = some ["ab".data] := by decide

example : chunk_text "ab\ncdefgh".data 5 1 =
    some ["ab\n".data, "\ncdef".data, "fgh".data] := by decide

example : pyRfind "ab\ncd".data '\n' 0 5 = 2 := by decide

example : pyRfind "abcd".data '\n' 0 4 = -1 := by decide

example : pyStrip "  ab c \n".data = "ab c".data := by decide

/- ----------------------------------------------------------------- -/

lemma pySlice_length (s : Str) (a b : Nat) (hb : b ≤ s.length) :
    (pySlice s a b).length = b - a := by
  simp [pySlice, List.length_take]
  omega

lemma pySlice_drop (s : Str) (a b k : Nat) :
    (pySlice s a b).drop k = pySlice s (a + k) b := by
  simp [pySlice, List.drop_drop]

lemma pySlice_take (s : Str) (a b k : Nat) (h : a + k ≤ b) :
    (pySlice s a b).take k = pySlice s a (a + k) := by
  simp only [pySlice, List.take_drop]
  rw [List.take_take, min_eq_left h]

lemma pySlice_append_drop (s : Str) (a b : Nat) (hab : a ≤ b) (hb : b ≤ s.length) :
    pySlice s a b ++ s.drop b = s.drop a := by
  have hl : a ≤ (s.take b).length := by simp [List.length_take]; omega
  conv_rhs => rw [← List.take_append_drop b s]
  rw [List.drop_append_of_le_length hl]
  rfl

lemma drop_eq_pySlice (s : Str) (a : Nat) : s.drop a = pySlice s a s.length := by
  simp [pySlice]

lemma lastHit_bounds {s : Str} {c : Char} {a : Nat} :
    ∀ {k p : Nat}, lastHit s c a k = some p → a ≤ p ∧ p < a + k ∧ s.getD p ' ' = c := by
  intro k
  induction k with
  | zero => intro p h; simp [lastHit] at h
  | succ k ih =>
    intro p h
    rw [lastHit] at h
    split at h
    · cases h
      refine ⟨by omega, by omega, by assumption⟩
    · have := ih h
      exact ⟨this.1, by omega, this.2.2⟩

lemma codeEnd_lb (text : Str) (cs ov start : Nat) (hov : ov < cs) :
    start + ov + 1 ≤ codeEnd text cs ov start := by
  unfold codeEnd
  split
  next hlt =>
    generalize hn : pyRfind text '\n' start (start + cs) = n at hlt
    omega
  next => omega

lemma pyRfind_lt_min (s : Str) (c : Char) (a b : Nat) :
    pyRfind s c a b = -1 ∨
      ∃ p : Nat, pyRfind s c a b = (p : Int) ∧ a ≤ p ∧ p < min b s.length := by
  unfold pyRfind
  rcases h : lastHit s c a (min b s.length - a) with _ | p
  · exact .inl rfl
  · have hb := lastHit_bounds h
    exact .inr ⟨p, rfl, hb.1, by omega⟩

lemma codeEnd_ub (text : Str) (cs ov start : Nat) :
    codeEnd text cs ov start ≤ start + cs := by
  unfold codeEnd
  split
  next hlt =>
    rcases pyRfind_lt_min text '\n' start (start + cs) with h | ⟨p, h, hp1, hp2⟩ <;>
      rw [h] at hlt
    · omega
    · rw [h]; omega
  next => omega

lemma chunksFrom_ne_nil {text : Str} {cs ov s : Nat} {l : List Str}
    (h : ChunksFrom text cs ov s l) : l ≠ [] := by
  cases h <;> simp

/-- Master lemma: with `overlap < chunk_size` and enough fuel, the loop
    returns a list of the `ChunksFrom` shape. -/
lemma chunkLoop_spec (text : Str) (cs ov : Nat) (hov : ov < cs) :
    ∀ fuel start, start < text.length → text.length ≤ start + fuel →
      ∃ l, chunkLoop text cs ov fuel start = some l ∧ ChunksFrom text cs ov start l := by
  intro fuel
  induction fuel with
  | zero => intro start h1 h2; omega
  | succ fuel ih =>
    intro start h1 h2
    rw [chunkLoop]
    simp only [if_pos h1]
    by_cases hend : text.length ≤ start + cs
    · exact ⟨_, by rw [if_pos hend], ChunksFrom.last start h1 hend⟩
    · rw [if_neg hend]
      have hlt : start + cs < text.length := by omega
      have hlb := codeEnd_lb text cs ov start hov
      have hub := codeEnd_ub text cs ov start
      have h1' : codeEnd text cs ov start - ov < text.length := by omega
      have h2' : text.length ≤ codeEnd text cs ov start - ov + fuel := by omega
      obtain ⟨rest, hrest, hcf⟩ := ih (codeEnd text cs ov start - ov) h1' h2'
      refine ⟨_, ?_, ChunksFrom.step start rest hlt hcf⟩
      rw [hrest]

lemma chunk_text_multi (text : Str) (cs ov : Nat) (h1 : cs < text.length) (hov : ov < cs) :
    ∃ l, chunk_text text cs ov = some l ∧ ChunksFrom text cs ov 0 l := by
  rw [chunk_text, if_neg (by omega)]
  exact chunkLoop_spec text cs ov hov (text.length + 1) 0 (by omega) (by omega)

/-- Once the fuel exceeds the remaining length, the loop's result no longer
    depends on the fuel: the source's `while` loop terminates. -/
lemma chunkLoop_fuel_eq (text : Str) (cs ov : Nat) (hov : ov < cs) :
    ∀ f1 f2 start, text.length - start < f1 → text.length - start < f2 →
      chunkLoop text cs ov f1 start = chunkLoop text cs ov f2 start := by
  intro f1
  induction f1 with
  | zero => intro f2 start h1 h2; omega
  | succ f1 ih =>
    intro f2 start h1 h2
    obtain ⟨g, rfl⟩ : ∃ g, f2 = g + 1 := ⟨f2 - 1, by omega⟩
    rw [chunkLoop, chunkLoop]
    by_cases hs : start < text.length
    · simp only [if_pos hs]
      by_cases hend : text.length ≤ start + cs
      · rw [if_pos hend, if_pos hend]
      · rw [if_neg hend, if_neg hend]
        have hlb := codeEnd_lb text cs ov start hov
        rw [ih g (codeEnd text cs ov start - ov) (by omega) (by omega)]
    · simp only [if_neg hs]

lemma chunksFrom_head {text : Str} {cs ov s : Nat} {l : List Str} (hov : ov < cs)
    (h : ChunksFrom text cs ov s l) :
    ∃ e rest, l = pySlice text s e :: rest ∧ s < e ∧ e ≤ text.length ∧
      (s + ov < e ∨ e = text.length) := by
  cases h with
  | last s h1 h2 =>
    exact ⟨text.length, [], by rw [drop_eq_pySlice], h1, le_refl _, .inr rfl⟩
  | step s rest h1 h2 =>
    have hlb := codeEnd_lb text cs ov s hov
    have hub := codeEnd_ub text cs ov s
    exact ⟨codeEnd text cs ov s, rest, rfl, by omega, by omega, .inl (by omega)⟩

lemma chunksFrom_dropFlatten {text : Str} {cs ov : Nat} (hov : ov < cs) :
    ∀ {s : Nat} {l : List Str}, ChunksFrom text cs ov s l →
      (l.map (fun c => c.drop ov)).flatten = text.drop (s + ov) := by
  intro s l h
  induction h with
  | last s h1 h2 =>
    simp [List.drop_drop, Nat.add_comm]
  | step s rest h1 h2 ih =>
    have hlb := codeEnd_lb text cs ov s hov
    have hub := codeEnd_ub text cs ov s
    simp only [List.map_cons, List.flatten_cons, ih]
    rw [pySlice_drop]
    have he : codeEnd text cs ov s - ov + ov = codeEnd text cs ov s := by omega
    rw [he]
    exact pySlice_append_drop text (s + ov) (codeEnd text cs ov s) (by omega) (by omega)

lemma chunksFrom_glue {text : Str} {cs ov : Nat} (hov : ov < cs)
    {s : Nat} {l : List Str} (h : ChunksFrom text cs ov s l) :
    glue ov l = text.drop s := by
  cases h with
  | last s h1 h2 => simp [glue]
  | step s rest h1 h2 =>
    have hlb := codeEnd_lb text cs ov s hov
    have hub := codeEnd_ub text cs ov s
    rw [glue, chunksFrom_dropFlatten hov h2]
    have he : codeEnd text cs ov s - ov + ov = codeEnd text cs ov s := by omega
    rw [he]
    exact pySlice_append_drop text s (codeEnd text cs ov s) (by omega) (by omega)

lemma chunksFrom_chain {text : Str} {cs ov : Nat} (hov : ov < cs) :
    ∀ {s : Nat} {l : List Str}, ChunksFrom text cs ov s l → List.Chain' (AdjOv ov) l := by
  intro s l h
  induction h with
  | last s h1 h2 => simp
  | step s rest h1 h2 ih =>
    rw [List.chain'_cons']
    refine ⟨?_, ih⟩
    intro b hb
    obtain ⟨e, rest', heq, he1, he2, he3⟩ := chunksFrom_head hov h2
    rw [heq] at hb
    simp only [List.head?_cons, Option.mem_def, Option.some.injEq] at hb
    subst hb
    have hlb := codeEnd_lb text cs ov s hov
    have hub := codeEnd_ub text cs ov s
    have hlen : codeEnd text cs ov s < text.length := by omega
    have hs' : codeEnd text cs ov s - ov + ov = codeEnd text cs ov s := by omega
    have hkey : codeEnd text cs ov s - ov + ov < e := by
      rcases he3 with h3 | h3 <;> omega
    refine ⟨?_, ?_, ?_⟩
    · rw [pySlice_length text s _ (by omega)]; omega
    · rw [pySlice_length text _ e he2]; omega
    · rw [pySlice_length text s _ (by omega), pySlice_drop,
        pySlice_take text _ e ov (by omega)]
      have h4 : s + (codeEnd text cs ov s - s - ov) = codeEnd text cs ov s - ov := by omega
      rw [h4, hs']

lemma lastHit_split (s : Str) (c : Char) (a m : Nat) :
    ∀ k, lastHit s c a (m + k) =
      match lastHit s c (a + m) k with
      | some p => some p
      | none => lastHit s c a m := by
  intro k
  induction k with
  | zero => simp [lastHit]
  | succ k ih =>
    have h1 : m + (k + 1) = (m + k) + 1 := by omega
    rw [h1, lastHit, lastHit]
    have h2 : a + (m + k) = a + m + k := by omega
    rw [h2]
    by_cases hc : s.getD (a + m + k) ' ' = c
    · rw [if_pos hc, if_pos hc]
    · rw [if_neg hc, if_neg hc]
      exact ih

lemma lastHit_eq_getLast (s : Str) (c : Char) :
    ∀ (k a : Nat), lastHit s c a k =
      ((List.range' a k).filter (fun p => s.getD p ' ' = c)).getLast? := by
  intro k
  induction k with
  | zero => intro a; simp [lastHit]
  | succ k ih =>
    intro a
    rw [lastHit]
    have hr : List.range' a (k + 1) = List.range' a k ++ [a + k] := by
      simpa using @List.range'_concat 1 a k
    rw [hr, List.filter_append]
    by_cases hc : s.getD (a + k) ' ' = c
    · rw [if_pos hc]
      have hf : List.filter (fun p => decide (s.getD p ' ' = c)) [a + k] = [a + k] := by
        rw [List.filter_singleton, decide_eq_true hc]
        rfl
      rw [hf, List.getLast?_append, List.getLast?_singleton]
      rfl
    · rw [if_neg hc]
      have hf : List.filter (fun p => decide (s.getD p ' ' = c)) [a + k] = [] := by
        rw [List.filter_singleton, decide_eq_false hc]
        rfl
      rw [hf, List.append_nil]
      exact ih a

/-- The code's boundary (rfind over the whole window, then the
    `nl_pos > start + overlap` test) equals the spec's boundary (last
    line-break strictly beyond the overlap floor, if any). -/
lemma codeEnd_eq_specEnd (text : Str) (cs ov start : Nat) (hov : ov < cs)
    (hin : start + cs ≤ text.length) :
    codeEnd text cs ov start = specEnd text cs ov start := by
  have hwin : min (start + cs) text.length - start = cs := by omega
  have hsplit : ov + 1 + (cs - ov - 1) = cs := by omega
  have hLH := lastHit_split text '\n' start (ov + 1) (cs - ov - 1)
  rw [hsplit] at hLH
  have hspec : specLastBreak text cs ov start =
      lastHit text '\n' (start + (ov + 1)) (cs - ov - 1) := by
    unfold specLastBreak
    rw [lastHit_eq_getLast]
    have : start + ov + 1 = start + (ov + 1) := by omega
    rw [this]
  unfold codeEnd pyRfind specEnd
  rw [hwin, hLH, hspec]
  rcases h : lastHit text '\n' (start + (ov + 1)) (cs - ov - 1) with _ | p
  · rcases h2 : lastHit text '\n' start (ov + 1) with _ | q
    · have hneg : ¬ ((start : Int) + (ov : Int) < -1) := by omega
      simp [h, h2, hneg]
    · have hb := lastHit_bounds h2
      have hq : ¬ ((start : Int) + (ov : Int) < (q : Int)) := by
        have := hb.2.1
        omega
      simp [h, h2, hq]
  · have hb := lastHit_bounds h
    have hp : (start : Int) + (ov : Int) < (p : Int) := by
      have := hb.1
      omega
    simp [h, hp]

lemma chunksFrom_toSpec {text : Str} {cs ov : Nat} (hov : ov < cs) :
    ∀ {s : Nat} {l : List Str}, ChunksFrom text cs ov s l → ChunksFromSpec text cs ov s l := by
  intro s l h
  induction h with
  | last s h1 h2 => exact .last s h1 h2
  | step s rest h1 h2 ih =>
    have he := codeEnd_eq_specEnd text cs ov s hov (by omega)
    rw [he] at ih ⊢
    exact .step s rest h1 ih

lemma chunksFrom_lengths {text : Str} {cs ov : Nat} :
    ∀ {s : Nat} {l : List Str}, ChunksFrom text cs ov s l → ∀ c ∈ l, c.length ≤ cs := by
  intro s l h
  induction h with
  | last s h1 h2 =>
    intro c hc
    simp only [List.mem_singleton] at hc
    subst hc
    simp only [List.length_drop]
    omega
  | step s rest h1 h2 ih =>
    intro c hc
    rcases List.mem_cons.mp hc with rfl | hc
    · have hub := codeEnd_ub text cs ov s
      rw [pySlice_length text s _ (by omega)]
      omega
    · exact ih c hc

/-- C2: for every input text longer than `chunk_size` (with
    `0 < overlap < chunk_size`), `chunk_text` returns at least two chunks such
    that every adjacent pair shares a non-empty overlap — the first `overlap`
    characters of the later chunk are byte-identical to the last `overlap`
    characters of the earlier one — and concatenating the first chunk with
    each subsequent chunk minus its first `overlap` characters reconstructs
    the input exactly. -/
theorem c2_overlap_reconstruction (text : Str) (chunk_size overlap : Nat)
    (hlen : chunk_size < text.length) (hov0 : 0 < overlap) (hov : overlap < chunk_size) :
    ∃ l, chunk_text text chunk_size overlap = some l ∧ 2 ≤ l.length ∧
      List.Chain' (fun a b => AdjOv overlap a b ∧ b.take overlap ≠ []) l ∧
      glue overlap l = text := by
  obtain ⟨l, hl, hcf⟩ := chunk_text_multi text chunk_size overlap hlen hov
  refine ⟨l, hl, ?_, ?_, ?_⟩
  · cases hcf with
    | last s h1 h2 => omega
    | step s rest h1 h2 =>
      have hne := chunksFrom_ne_nil h2
      cases rest with
      | nil => exact absurd rfl hne
      | cons x xs => simp
  · refine (chunksFrom_chain hov hcf).imp ?_
    intro a b hab
    refine ⟨hab, ?_⟩
    intro hemp
    have hlb := hab.2.1
    have h0 : (b.take overlap).length = 0 := by rw [hemp]; rfl
    rw [List.length_take] at h0
    omega
  · rw [chunksFrom_glue hov hcf]
    exact List.drop_zero text

theorem c2_overlap_reconstruction_witness :
    4 < ("abcdefghij".data : Str).length ∧ 0 < 2 ∧ 2 < 4 ∧
      (∃ l, chunk_text "abcdefghij".data 4 2 = some l ∧ 2 ≤ l.length ∧
        List.Chain' (fun a b => AdjOv 2 a b ∧ b.take 2 ≠ []) l ∧
        glue 2 l = "abcdefghij".data) :=
  ⟨by decide, by decide, by decide,
   c2_overlap_reconstruction "abcdefghij".data 4 2 (by decide) (by decide) (by decide)⟩

/-- C3: for every input text and all parameters with
    `0 < overlap < chunk_size`, `chunk_text` terminates with a finite chunk
    list: its loop's result is independent of the fuel bound once the fuel
    exceeds the input length, and the loop's `start` offset strictly increases
    on every iteration (the next start is `codeEnd - overlap`), regardless of
    input length or line-break distribution. -/
theorem c3_chunker_termination (text : Str) (chunk_size overlap : Nat)
    (hov0 : 0 < overlap) (hov : overlap < chunk_size) :
    (∃ l, chunk_text text chunk_size overlap = some l) ∧
    (∀ fuel, text.length < fuel →
      chunkLoop text chunk_size overlap fuel 0 =
        chunkLoop text chunk_size overlap (text.length + 1) 0) ∧
    (∀ start, start + chunk_size < text.length →
      start < codeEnd text chunk_size overlap start - overlap) := by
  refine ⟨?_, ?_, ?_⟩
  · by_cases h : text.length ≤ chunk_size
    · exact ⟨[text], by rw [chunk_text, if_pos h]⟩
    · obtain ⟨l, hl, _⟩ := chunk_text_multi text chunk_size overlap (by omega) hov
      exact ⟨l, hl⟩
  · intro fuel hf
    exact chunkLoop_fuel_eq text chunk_size overlap hov fuel (text.length + 1) 0
      (by omega) (by omega)
  · intro s hs
    have := codeEnd_lb text chunk_size overlap s hov
    omega

theorem c3_chunker_termination_witness :
    0 < 1 ∧ 1 < 3 ∧
      ((∃ l, chunk_text "ab\ncdefgh".data 3 1 = some l) ∧
       (∀ fuel, ("ab\ncdefgh".data : Str).length < fuel →
         chunkLoop "ab\ncdefgh".data 3 1 fuel 0 =
           chunkLoop "ab\ncdefgh".data 3 1 (("ab\ncdefgh".data : Str).length + 1) 0) ∧
       (∀ start, start + 3 < ("ab\ncdefgh".data : Str).length →
         start < codeEnd "ab\ncdefgh".data 3 1 start - 1)) :=
  ⟨by decide, by decide, c3_chunker_termination "ab\ncdefgh".data 3 1 (by decide) (by decide)⟩

/-- C4: when the input is longer than `chunk_size` (with
    `0 < overlap < chunk_size`), the chunk list has the spec's boundary shape
    (`ChunksFromSpec`): each non-final chunk starting at `start` ends just
    after the last line-break in `[start, start + chunk_size)` lying strictly
    beyond `start + overlap`, or exactly at `start + chunk_size` when no such
    line-break exists (`specEnd`), and consequently no emitted chunk is longer
    than `chunk_size`. -/
theorem c4_boundary_choice (text : Str) (chunk_size overlap : Nat)
    (hlen : chunk_size < text.length) (hov0 : 0 < overlap) (hov : overlap < chunk_size) :
    ∃ l, chunk_text text chunk_size overlap = some l ∧
      ChunksFromSpec text chunk_size overlap 0 l ∧
      ∀ c ∈ l, c.length ≤ chunk_size := by
  obtain ⟨l, hl, hcf⟩ := chunk_text_multi text chunk_size overlap hlen hov
  exact ⟨l, hl, chunksFrom_toSpec hov hcf, chunksFrom_lengths hcf⟩

theorem c4_boundary_choice_witness :
    5 < ("ab\ncdefgh".data : Str).length ∧ 0 < 1 ∧ 1 < 5 ∧
      (∃ l, chunk_text "ab\ncdefgh".data 5 1 = some l ∧
        ChunksFromSpec "ab\ncdefgh".data 5 1 0 l ∧
        ∀ c ∈ l, c.length ≤ 5) :=
  ⟨by decide, by decide, by decide,
   c4_boundary_choice "ab\ncdefgh".data 5 1 (by decide) (by decide) (by decide)⟩

/-- C9: on a source-read failure (the document open fails, or any page's
    extraction raises), the extractor discards all partially accumulated text
    and returns the empty string ("does not partially extract"), and
    `process_pdf` immediately returns a failure dictionary referencing the
    document identifier, with no file persisted (empty artifact trace). -/
theorem c9_source_read_failure (has_api_key : Bool) (pdf_name : Str)
    (pages : Option (List (Option Str))) (llm : Nat → LlmOutcome)
    (hfail : pages = none ∨ ∃ ps, pages = some ps ∧ ps.all Option.isSome = false) :
    extract_text_from_pdf pages = [] ∧
    process_pdf has_api_key pdf_name pages llm =
      (.ok (.extractError ("Failed to extract text from ".data ++ pdf_name)), []) := by
  have hext : extract_text_from_pdf pages = [] := by
    rcases hfail with rfl | ⟨ps, rfl, hps⟩
    · rfl
    · simp [extract_text_from_pdf, hps]
  refine ⟨hext, ?_⟩
  simp [process_pdf, run_text, hext, extractErrMsg, pyStrip]

theorem c9_source_read_failure_witness :
    ((none : Option (List (Option Str))) = none ∨
      ∃ ps, (none : Option (List (Option Str))) = some ps ∧ ps.all Option.isSome = false) ∧
    (extract_text_from_pdf none = [] ∧
     process_pdf false "a.pdf".data none (fun _ => .reply "[]".data) =
       (.ok (.extractError ("Failed to extract text from ".data ++ "a.pdf".data)), [])) :=
  ⟨.inl rfl, c9_source_read_failure false "a.pdf".data none (fun _ => .reply "[]".data) (.inl rfl)⟩

/-- C10: a chunk whose text is empty or whitespace-only makes
    `process_text_chunk_with_llm` return a failure dictionary without reaching
    the API call (second component `false`), whatever the oracle would have
    answered; the result is an error entry contributing zero records, and
    every chunk contributes exactly one entry to the diagnostics list. -/
theorem c10_blank_chunk (has_api_key : Bool) (chunk pdf_name : Str)
    (chunk_num total_chunks : Nat) (llm : LlmOutcome)
    (hblank : pyStrip chunk = []) :
    process_text_chunk_with_llm has_api_key chunk pdf_name chunk_num total_chunks llm =
      (.errorOnly (if has_api_key then emptyChunkMsg else noKeyMsg), false) ∧
    hasError (.errorOnly (if has_api_key then emptyChunkMsg else noKeyMsg)) = true ∧
    itemsOf (.errorOnly (if has_api_key then emptyChunkMsg else noKeyMsg)) = [] ∧
    ∀ (hk : Bool) (nm : Str) (chunks : List Str) (o : Nat → LlmOutcome),
      (chunk_results hk nm chunks o).length = chunks.length := by
  refine ⟨?_, rfl, rfl, ?_⟩
  · cases has_api_key with
    | false => simp [process_text_chunk_with_llm]
    | true => simp [process_text_chunk_with_llm, hblank]
  · intro hk nm chunks o
    unfold chunk_results
    rw [List.length_map, List.enum_length]

theorem c10_blank_chunk_witness :
    pyStrip " \n\t".data = [] ∧
    (process_text_chunk_with_llm true " \n\t".data "a.pdf".data 1 2
        (.reply "[1]".data) =
      (.errorOnly (if true then emptyChunkMsg else noKeyMsg), false) ∧
     hasError (.errorOnly (if true then emptyChunkMsg else noKeyMsg)) = true ∧
     itemsOf (.errorOnly (if true then emptyChunkMsg else noKeyMsg)) = [] ∧
     ∀ (hk : Bool) (nm : Str) (chunks : List Str) (o : Nat → LlmOutcome),
       (chunk_results hk nm chunks o).length = chunks.length) :=
  ⟨by decide,
   c10_blank_chunk true " \n\t".data "a.pdf".data 1 2 (.reply "[1]".data) (by decide)⟩

/-- C6: for every model reply whose candidate string (after fenced-block
    extraction and bracket coercion) fails JSON parsing, the client returns a
    failure value — no exception — that carries a description of the parse
    error together with the original raw reply unmodified. -/
theorem c6_parse_failure (chunk pdf_name reply : Str) (chunk_num total_chunks : Nat)
    (e : Str) (hchunk : ¬ pyStrip chunk = [])
    (hfail : json_loads (candidate reply) = .error e) :
    process_text_chunk_with_llm true chunk pdf_name chunk_num total_chunks (.reply reply) =
      (.errorRaw (parseErrMsg chunk_num e) reply, true) := by
  unfold process_text_chunk_with_llm
  rw [if_neg (by simp), if_neg hchunk]
  show (match json_loads (candidate reply) with
    | .ok items => (ChunkResult.success items reply, true)
    | .error e => (.errorRaw (parseErrMsg chunk_num e) reply, true)) = _
  rw [hfail]

theorem c6_parse_failure_witness :
    ¬ pyStrip "x".data = [] ∧
    json_loads (candidate "not json".data) = .error "Expecting value".data ∧
    process_text_chunk_with_llm true "x".data "a.pdf".data 1 1 (.reply "not json".data) =
      (.errorRaw (parseErrMsg 1 "Expecting value".data) "not json".data, true) :=
  ⟨by decide, by rfl,
   c6_parse_failure "x".data "a.pdf".data "not json".data 1 1 "Expecting value".data
     (by decide) (by rfl)⟩

lemma head?_dropWhile_false (p : Char → Bool) :
    ∀ (l : Str) {c : Char}, (l.dropWhile p).head? = some c → p c = false := by
  intro l
  induction l with
  | nil => intro c h; simp [List.dropWhile] at h
  | cons a t ih =>
    intro c h
    rw [List.dropWhile_cons] at h
    by_cases hp : p a
    · rw [if_pos hp] at h
      exact ih h
    · rw [if_neg hp] at h
      simp only [List.head?_cons, Option.some.injEq] at h
      subst h
      simpa using hp

lemma getLast?_of_suffix {l1 l2 : Str} (h : l1 <:+ l2) (hne : l1 ≠ []) :
    l2.getLast? = l1.getLast? := by
  obtain ⟨w, rfl⟩ := h
  rw [List.getLast?_append]
  rcases hl : l1.getLast? with _ | a
  · exact absurd (List.getLast?_eq_none_iff.mp hl) hne
  · rfl

lemma pyStrip_getLast_false {s : Str} {c : Char} (h : (pyStrip s).getLast? = some c) :
    pyIsSpace c = false := by
  unfold pyStrip at h
  rw [List.getLast?_reverse] at h
  exact head?_dropWhile_false pyIsSpace _ h

lemma dropWhile_eq_self_of_head (p : Char → Bool) (l : Str)
    (h : ∀ c, l.head? = some c → p c = false) : l.dropWhile p = l := by
  cases l with
  | nil => rfl
  | cons a t =>
    rw [List.dropWhile_cons, if_neg]
    simp [h a rfl]

lemma pyStrip_eq_self (s : Str)
    (h1 : ∀ c, s.head? = some c → pyIsSpace c = false)
    (h2 : ∀ c, s.getLast? = some c → pyIsSpace c = false) :
    pyStrip s = s := by
  unfold pyStrip
  rw [dropWhile_eq_self_of_head _ _ h1]
  rw [dropWhile_eq_self_of_head _ _ (fun c hc => h2 c (by rwa [List.head?_reverse] at hc))]
  exact List.reverse_reverse s

/-- Left-coercion preserves strippedness: the code's second `.strip()` (line
    185) is the identity on `'[' + json_str.strip()`. -/
lemma pyStrip_bracket (s : Str) :
    pyStrip ("[".data ++ pyStrip s) = "[".data ++ pyStrip s := by
  have hb : "[".data ++ pyStrip s = '[' :: pyStrip s := rfl
  rw [hb]
  apply pyStrip_eq_self
  · intro c hc
    simp only [List.head?_cons, Option.some.injEq] at hc
    subst hc
    rfl
  · intro c hc
    rcases hq : (pyStrip s).getLast? with _ | q
    · have h0 : pyStrip s = [] := List.getLast?_eq_none_iff.mp hq
      rw [h0] at hc
      simp only [List.getLast?_singleton, Option.some.injEq] at hc
      subst hc
      rfl
    · have hc2 : ('[' :: pyStrip s).getLast? = some q := by
        have : '[' :: pyStrip s = ['['] ++ pyStrip s := rfl
        rw [this, List.getLast?_append, hq]
        rfl
      rw [hc2] at hc
      cases hc
      exact pyStrip_getLast_false hq

lemma itemsOf_of_hasError {r : ChunkResult} (h : hasError r = true) : itemsOf r = [] := by
  cases r with
  | errorOnly m => rfl
  | errorRaw m raw => rfl
  | success items raw => simp [hasError] at h

lemma find?_replace (k : Str) (v : Json) :
    ∀ (fields : List (Str × Json)), fields.any (fun p => p.1 = k) = true →
      (fields.map (fun p => if p.1 = k then (k, v) else p)).find?
        (fun p => p.1 = k) = some (k, v) := by
  intro fields
  induction fields with
  | nil => intro h; simp at h
  | cons p t ih =>
    intro h
    simp only [List.map_cons]
    by_cases hp : p.1 = k
    · rw [if_pos hp]
      exact List.find?_cons_of_pos _ (by simp)
    · rw [if_neg hp]
      rw [List.find?_cons_of_neg _ (by simp [hp])]
      apply ih
      simp only [List.any_cons, Bool.or_eq_true, decide_eq_true_eq] at h
      rcases h with h | h
      · exact absurd h hp
      · exact h

lemma getField_setField (fields : List (Str × Json)) (k : Str) (v : Json) :
    getField (setField fields k v) k = some v := by
  unfold setField getField
  by_cases h : fields.any (fun p => p.1 = k) = true
  · rw [if_pos h, find?_replace k v fields h]
    rfl
  · rw [if_neg h, List.find?_append]
    have hnone : fields.find? (fun p => p.1 = k) = none := by
      rw [List.find?_eq_none]
      intro x hx
      simp only [decide_eq_true_eq]
      intro hk
      apply h
      rw [List.any_eq_true]
      exact ⟨x, hx, by simp [hk]⟩
    rw [hnone]
    simp [List.find?]

lemma assignIdsFrom_ok : ∀ (l : List Json) (n : Nat), (∀ j ∈ l, isObj j = true) →
    assignIdsFrom n l = .ok (setIdsFrom n l) := by
  intro l
  induction l with
  | nil => intro n _; rfl
  | cons j t ih =>
    intro n h
    cases j with
    | obj fields =>
      simp only [assignIdsFrom, setIdsFrom, setItemId]
      rw [ih (n + 1) (fun x hx => h x (List.mem_cons_of_mem _ hx))]
    | null => exact absurd (h _ (List.mem_cons_self _ _)) (by simp [isObj])
    | bool b => exact absurd (h _ (List.mem_cons_self _ _)) (by simp [isObj])
    | num m => exact absurd (h _ (List.mem_cons_self _ _)) (by simp [isObj])
    | numF m e => exact absurd (h _ (List.mem_cons_self _ _)) (by simp [isObj])
    | str s => exact absurd (h _ (List.mem_cons_self _ _)) (by simp [isObj])
    | arr xs => exact absurd (h _ (List.mem_cons_self _ _)) (by simp [isObj])
    | nanV => exact absurd (h _ (List.mem_cons_self _ _)) (by simp [isObj])
    | infV b2 => exact absurd (h _ (List.mem_cons_self _ _)) (by simp [isObj])

lemma assignIdsFrom_ok_inv : ∀ (l : List Json) (n : Nat) (out : List Json),
    assignIdsFrom n l = .ok out →
    out = setIdsFrom n l ∧ ∀ j ∈ l, isObj j = true := by
  intro l
  induction l with
  | nil =>
    intro n out h
    simp only [assignIdsFrom] at h
    cases h
    exact ⟨rfl, by simp⟩
  | cons j t ih =>
    intro n out h
    cases j with
    | obj fields =>
      simp only [assignIdsFrom] at h
      rcases hrec : assignIdsFrom (n + 1) t with e | out'
      · rw [hrec] at h
        cases h
      · rw [hrec] at h
        cases h
        obtain ⟨h1, h2⟩ := ih (n + 1) out' hrec
        subst h1
        refine ⟨rfl, ?_⟩
        intro j hj
        rcases List.mem_cons.mp hj with rfl | hj
        · rfl
        · exact h2 j hj
    | null => simp only [assignIdsFrom] at h; cases h
    | bool b => simp only [assignIdsFrom] at h; cases h
    | num m => simp only [assignIdsFrom] at h; cases h
    | numF m e => simp only [assignIdsFrom] at h; cases h
    | str s => simp only [assignIdsFrom] at h; cases h
    | arr xs => simp only [assignIdsFrom] at h; cases h
    | nanV => simp only [assignIdsFrom] at h; cases h
    | infV b2 => simp only [assignIdsFrom] at h; cases h

lemma setIdsFrom_length : ∀ (l : List Json) (n : Nat), (setIdsFrom n l).length = l.length := by
  intro l
  induction l with
  | nil => intro n; rfl
  | cons j t ih => intro n; simp [setIdsFrom, ih]

lemma setIdsFrom_map_getId : ∀ (l : List Json) (n : Nat), (∀ j ∈ l, isObj j = true) →
    (setIdsFrom n l).map getId =
      (List.range' n l.length).map (fun k => some (Json.num (Int.ofNat k))) := by
  intro l
  induction l with
  | nil => intro n _; rfl
  | cons j t ih =>
    intro n h
    cases j with
    | obj fields =>
      simp only [setIdsFrom, setItemId, List.map_cons, List.length_cons]
      rw [List.range'_succ n t.length 1, List.map_cons,
        ih (n + 1) (fun x hx => h x (List.mem_cons_of_mem _ hx))]
      congr 1
      show getField (setField fields "id".data (.num (Int.ofNat n))) "id".data =
        some (.num (Int.ofNat n))
      exact getField_setField fields "id".data (.num (Int.ofNat n))
    | null => exact absurd (h _ (List.mem_cons_self _ _)) (by simp [isObj])
    | bool b => exact absurd (h _ (List.mem_cons_self _ _)) (by simp [isObj])
    | num m => exact absurd (h _ (List.mem_cons_self _ _)) (by simp [isObj])
    | numF m e => exact absurd (h _ (List.mem_cons_self _ _)) (by simp [isObj])
    | str s => exact absurd (h _ (List.mem_cons_self _ _)) (by simp [isObj])
    | arr xs => exact absurd (h _ (List.mem_cons_self _ _)) (by simp [isObj])
    | nanV => exact absurd (h _ (List.mem_cons_self _ _)) (by simp [isObj])
    | infV b2 => exact absurd (h _ (List.mem_cons_self _ _)) (by simp [isObj])

/-- C7: when every chunk's extraction fails, `process_pdf` returns the
    total-extraction failure dictionary; the artifacts persisted are exactly
    the extracted text, one diagnostic file per chunk (their count equals the
    chunk count), and one error file containing all per-chunk outcomes — and
    none of them is a CSV, Excel, or canonical structured artifact. -/
theorem c7_total_failure (has_api_key : Bool) (pdf_name : Str)
    (pages : Option (List (Option Str))) (llm : Nat → LlmOutcome)
    (htext : ¬ pyStrip (run_text pages) = [])
    (hall : (run_results has_api_key pdf_name pages llm).all hasError = true) :
    process_pdf has_api_key pdf_name pages llm =
      (.ok (.noItemsError noItemsMsg),
       Artifact.extractedText (run_text pages) ::
         ((run_results has_api_key pdf_name pages llm).enum.map
             (fun p => Artifact.chunkResultFile (p.1 + 1) p.2) ++
           [.errorFile noItemsMsg (run_results has_api_key pdf_name pages llm)])) ∧
    (run_results has_api_key pdf_name pages llm).length = (run_chunks pages).length ∧
    ∀ a ∈ (process_pdf has_api_key pdf_name pages llm).2,
      (∀ items, a ≠ .csv items) ∧ (∀ items, a ≠ .excel items) ∧
      (∀ items src nc ni, a ≠ .structuredJson items src nc ni) := by
  have hmerged :
      ((run_results has_api_key pdf_name pages llm).map itemsOf).flatten = [] := by
    rw [List.flatten_eq_nil_iff]
    intro x hx
    obtain ⟨r, hr, rfl⟩ := List.mem_map.mp hx
    exact itemsOf_of_hasError (List.all_eq_true.mp hall r hr)
  have hpp : process_pdf has_api_key pdf_name pages llm =
      (.ok (.noItemsError noItemsMsg),
       Artifact.extractedText (run_text pages) ::
         ((run_results has_api_key pdf_name pages llm).enum.map
             (fun p => Artifact.chunkResultFile (p.1 + 1) p.2) ++
           [.errorFile noItemsMsg (run_results has_api_key pdf_name pages llm)])) := by
    simp only [process_pdf]
    simp only [run_results, run_chunks, run_text] at hmerged htext ⊢
    rw [if_neg htext, hmerged]
    simp
  refine ⟨hpp, ?_, ?_⟩
  · simp only [run_results, chunk_results]
    rw [List.length_map, List.enum_length]
  · intro a ha
    rw [hpp] at ha
    simp only [List.mem_cons, List.mem_append, List.mem_map, List.mem_singleton] at ha
    rcases ha with rfl | ⟨p, _, rfl⟩ | rfl | h0
    · exact ⟨fun _ => by simp, fun _ => by simp, fun _ _ _ _ => by simp⟩
    · exact ⟨fun _ => by simp, fun _ => by simp, fun _ _ _ _ => by simp⟩
    · exact ⟨fun _ => by simp, fun _ => by simp, fun _ _ _ _ => by simp⟩
    · simp at h0

theorem c7_total_failure_witness :
    ¬ pyStrip (run_text (some [some "hi".data])) = [] ∧
    (run_results false "a.pdf".data (some [some "hi".data])
      (fun _ => .reply "[]".data)).all hasError = true ∧
    (process_pdf false "a.pdf".data (some [some "hi".data]) (fun _ => .reply "[]".data) =
      (.ok (.noItemsError noItemsMsg),
       Artifact.extractedText (run_text (some [some "hi".data])) ::
         ((run_results false "a.pdf".data (some [some "hi".data])
              (fun _ => .reply "[]".data)).enum.map
             (fun p => Artifact.chunkResultFile (p.1 + 1) p.2) ++
           [.errorFile noItemsMsg
             (run_results false "a.pdf".data (some [some "hi".data])
               (fun _ => .reply "[]".data))])) ∧
     (run_results false "a.pdf".data (some [some "hi".data])
        (fun _ => .reply "[]".data)).length =
       (run_chunks (some [some "hi".data])).length ∧
     ∀ a ∈ (process_pdf false "a.pdf".data (some [some "hi".data])
         (fun _ => .reply "[]".data)).2,
       (∀ items, a ≠ .csv items) ∧ (∀ items, a ≠ .excel items) ∧
       (∀ items src nc ni, a ≠ .structuredJson items src nc ni)) :=
  ⟨by decide, by rfl,
   c7_total_failure false "a.pdf".data (some [some "hi".data]) (fun _ => .reply "[]".data)
     (by decide) (by rfl)⟩

/-- C8 counterexample: for the LLM reply `[1]` — a well-formed JSON array
    whose element is not an object — the run reaches id assignment, where
    `item["id"] = idx` on the integer raises an uncaught TypeError:
    `process_pdf` ends in an exception, not a returned result dictionary,
    refuting the claim as stated. -/
theorem c8_cex_uncaught_typeerror :
    (process_pdf true "a.pdf".data (some [some "x".data])
      (fun _ => .reply "[1]".data)).1 = .error typeErrMsg := by rfl

/-- C8 (amended): for every document, key state and oracle whose collected
    records are all JSON objects (in particular, every reply parsing to an
    array of objects), `process_pdf` returns a result dictionary
    (`Except.ok`) and never ends in an exception (persistence I/O itself is
    modelled as succeeding). -/
theorem c8_returns_result_amended (has_api_key : Bool) (pdf_name : Str)
    (pages : Option (List (Option Str))) (llm : Nat → LlmOutcome)
    (hobj : (run_merged has_api_key pdf_name pages llm).all isObj = true) :
    ∃ r arts, process_pdf has_api_key pdf_name pages llm = (.ok r, arts) := by
  suffices hs : ∃ r, (process_pdf has_api_key pdf_name pages llm).1 = .ok r by
    obtain ⟨r, hr⟩ := hs
    exact ⟨r, (process_pdf has_api_key pdf_name pages llm).2, by rw [← hr]⟩
  by_cases htext : pyStrip (run_text pages) = []
  · simp only [process_pdf]
    rw [if_pos htext]
    exact ⟨_, rfl⟩
  · by_cases hemp :
      ((chunk_results has_api_key pdf_name (run_chunks pages) llm).map itemsOf).flatten.isEmpty = true
    · simp only [process_pdf]
      rw [if_neg htext, if_pos hemp]
      exact ⟨_, rfl⟩
    · have hok : assignIdsFrom 1
          (((chunk_results has_api_key pdf_name (run_chunks pages) llm).map itemsOf).flatten) =
          .ok (setIdsFrom 1
            (((chunk_results has_api_key pdf_name (run_chunks pages) llm).map itemsOf).flatten)) := by
        apply assignIdsFrom_ok
        intro j hj
        apply List.all_eq_true.mp hobj
        simpa [run_merged, run_results] using hj
      simp only [process_pdf]
      rw [if_neg htext, if_neg hemp, hok]
      exact ⟨_, rfl⟩

theorem c8_returns_result_amended_witness :
    (run_merged true "a.pdf".data (some [some "x".data])
      (fun _ => .reply "[\x7b\"n\": \"w\"\x7d]".data)).all isObj = true ∧
    ∃ r arts, process_pdf true "a.pdf".data (some [some "x".data])
      (fun _ => .reply "[\x7b\"n\": \"w\"\x7d]".data) = (.ok r, arts) :=
  ⟨by rfl,
   c8_returns_result_amended true "a.pdf".data (some [some "x".data])
     (fun _ => .reply "[\x7b\"n\": \"w\"\x7d]".data) (by rfl)⟩

/-- C1: every run of `process_pdf` that returns a success dictionary returns
    exactly the merged records (successful chunks in chunk order, records in
    their original in-chunk order) with each record's `id` set to its 1-based
    position in that order; consequently the ids read `1, 2, …, N` in
    dataset order — contiguous, no gaps, no duplicates. -/
theorem c1_ids_contiguous (has_api_key : Bool) (pdf_name : Str)
    (pages : Option (List (Option Str))) (llm : Nat → LlmOutcome)
    (items : List Json) (src : Str) (nc ni : Nat) (outs arts : List Artifact)
    (h : process_pdf has_api_key pdf_name pages llm =
      (.ok (.success items src nc ni outs), arts)) :
    items = setIdsFrom 1 (run_merged has_api_key pdf_name pages llm) ∧
    items.map getId =
      (List.range' 1 items.length).map (fun k => some (Json.num (Int.ofNat k))) := by
  simp only [process_pdf] at h
  by_cases htext : pyStrip (run_text pages) = []
  · rw [if_pos htext] at h
    simp at h
  · rw [if_neg htext] at h
    by_cases hemp :
      ((chunk_results has_api_key pdf_name (run_chunks pages) llm).map itemsOf).flatten.isEmpty = true
    · rw [if_pos hemp] at h
      simp at h
    · rw [if_neg hemp] at h
      rcases hout : assignIdsFrom 1
          (((chunk_results has_api_key pdf_name (run_chunks pages) llm).map itemsOf).flatten)
        with e | out
      · rw [hout] at h
        simp at h
      · rw [hout] at h
        simp only [Prod.mk.injEq, Except.ok.injEq, PdfResult.success.injEq] at h
        obtain ⟨⟨hitems, _, _, _, _⟩, _⟩ := h
        obtain ⟨hset, hobj⟩ := assignIdsFrom_ok_inv _ 1 _ hout
        subst hitems
        subst hset
        constructor
        · simp only [run_merged, run_results]
        · rw [setIdsFrom_length]
          exact setIdsFrom_map_getId _ 1 hobj

/-- C5: `process_text_chunk_with_llm` parses, in order of preference, the
    interior of a json code fence when one is present, else the whole raw
    reply; the candidate is bracket-coerced — left unchanged when its stripped
    text already starts with `[` and ends with `]`, and completed to
    `[ + stripped + ]` when both are missing; in particular the bare-object
    reply from the spec scenario is coerced to a one-element array and parses
    successfully as one record. -/
theorem c5_parse_preference :
    (∀ chunk pdf_name reply i chunk_num total_chunks, ¬ pyStrip chunk = [] →
      extractFenced reply = some i →
      process_text_chunk_with_llm true chunk pdf_name chunk_num total_chunks (.reply reply) =
        parseOutcome chunk_num reply (coerce i)) ∧
    (∀ chunk pdf_name reply chunk_num total_chunks, ¬ pyStrip chunk = [] →
      extractFenced reply = none →
      process_text_chunk_with_llm true chunk pdf_name chunk_num total_chunks (.reply reply) =
        parseOutcome chunk_num reply (coerce reply)) ∧
    (∀ s, pyStartsWith (pyStrip s) "[".data = true →
          pyEndsWith (pyStrip s) "]".data = true → coerce s = s) ∧
    (∀ s, pyStartsWith (pyStrip s) "[".data = false →
          pyEndsWith ("[".data ++ pyStrip s) "]".data = false →
      coerce s = "[".data ++ pyStrip s ++ "]".data) ∧
    (candidate "\x7b\"product_name\":\"Widget\"\x7d".data =
      "[\x7b\"product_name\":\"Widget\"\x7d]".data) ∧
    (process_text_chunk_with_llm true "x".data "a.pdf".data 1 1
        (.reply "\x7b\"product_name\":\"Widget\"\x7d".data) =
      (.success (.arr [.obj [("product_name".data, .str "Widget".data)]])
        "\x7b\"product_name\":\"Widget\"\x7d".data, true)) := by
  refine ⟨?_, ?_, ?_, ?_, by rfl, by rfl⟩
  · intro chunk pdf_name reply i cn tc hchunk hf
    unfold process_text_chunk_with_llm parseOutcome candidate
    rw [if_neg (by simp), if_neg hchunk]
    show (match json_loads (match extractFenced reply with
        | some json_str => coerce json_str
        | none => coerce reply) with
      | Except.ok items => (ChunkResult.success items reply, true)
      | Except.error e => (ChunkResult.errorRaw (parseErrMsg cn e) reply, true)) = _
    rw [hf]
  · intro chunk pdf_name reply cn tc hchunk hf
    unfold process_text_chunk_with_llm parseOutcome candidate
    rw [if_neg (by simp), if_neg hchunk]
    show (match json_loads (match extractFenced reply with
        | some json_str => coerce json_str
        | none => coerce reply) with
      | Except.ok items => (ChunkResult.success items reply, true)
      | Except.error e => (ChunkResult.errorRaw (parseErrMsg cn e) reply, true)) = _
    rw [hf]
  · intro s h1 h2
    have h1' : pyStartsWith (pyStrip s) ['['] = true := by simpa using h1
    have h2' : pyEndsWith (pyStrip s) [']'] = true := by simpa using h2
    simp [coerce, h1', h2']
  · intro s h1 h2
    have h1' : pyStartsWith (pyStrip s) ['['] = false := by simpa using h1
    have h2' : pyEndsWith ('[' :: pyStrip s) [']'] = false := by simpa using h2
    have hb : pyStrip ('[' :: pyStrip s) = '[' :: pyStrip s := by
      simpa using pyStrip_bracket s
    simp [coerce, h1', hb, h2']

theorem c5_parse_preference_witness :
    ¬ pyStrip "x".data = [] ∧
    extractFenced "```json\n[2]\n```".data = some "[2]".data ∧
    process_text_chunk_with_llm true "x".data "a.pdf".data 1 1
        (.reply "```json\n[2]\n```".data) =
      parseOutcome 1 "```json\n[2]\n```".data (coerce "[2]".data) :=
  ⟨by decide, by rfl,
   c5_parse_preference.1 "x".data "a.pdf".data "```json\n[2]\n```".data "[2]".data 1 1
     (by decide) (by rfl)⟩

theorem c1_ids_contiguous_witness :
    process_pdf true "a.pdf".data (some [some "x".data])
        (fun _ => .reply "[\x7b\"n\": \"w\"\x7d, \x7b\"m\": 5\x7d]".data) =
      (.ok (.success
          [.obj [("n".data, .str "w".data), ("id".data, .num 1)],
           .obj [("m".data, .num 5), ("id".data, .num 2)]]
          "a.pdf".data 1 2
          [.structuredJson
             [.obj [("n".data, .str "w".data), ("id".data, .num 1)],
              .obj [("m".data, .num 5), ("id".data, .num 2)]] "a.pdf".data 1 2,
           .csv [.obj [("n".data, .str "w".data), ("id".data, .num 1)],
                 .obj [("m".data, .num 5), ("id".data, .num 2)]],
           .excel [.obj [("n".data, .str "w".data), ("id".data, .num 1)],
                   .obj [("m".data, .num 5), ("id".data, .num 2)]]]),
       [.extractedText "x\n".data,
        .chunkResultFile 1 (.success
          (.arr [.obj [("n".data, .str "w".data)], .obj [("m".data, .num 5)]])
          "[\x7b\"n\": \"w\"\x7d, \x7b\"m\": 5\x7d]".data),
        .structuredJson
          [.obj [("n".data, .str "w".data), ("id".data, .num 1)],
           .obj [("m".data, .num 5), ("id".data, .num 2)]] "a.pdf".data 1 2,
        .csv [.obj [("n".data, .str "w".data), ("id".data, .num 1)],
              .obj [("m".data, .num 5), ("id".data, .num 2)]],
        .excel [.obj [("n".data, .str "w".data), ("id".data, .num 1)],
                .obj [("m".data, .num 5), ("id".data, .num 2)]]]) ∧
    ([.obj [("n".data, .str "w".data), ("id".data, .num 1)],
      .obj [("m".data, .num 5), ("id".data, .num 2)]] =
        setIdsFrom 1 (run_merged true "a.pdf".data (some [some "x".data])
          (fun _ => .reply "[\x7b\"n\": \"w\"\x7d, \x7b\"m\": 5\x7d]".data)) ∧
     ([.obj [("n".data, .str "w".data), ("id".data, .num 1)],
       .obj [("m".data, .num 5), ("id".data, .num 2)]] : List Json).map getId =
        (List.range' 1 2).map (fun k => some (Json.num (Int.ofNat k)))) :=
  ⟨by rfl,
   c1_ids_contiguous true "a.pdf".data (some [some "x".data])
     (fun _ => .reply "[\x7b\"n\": \"w\"\x7d, \x7b\"m\": 5\x7d]".data)
     _ _ _ _ _ _ (by rfl)⟩

-- The json.loads constants accepted by default, and their pipeline effect:
-- a chunk reply of non-object floats reaches id assignment and raises there.
example : json_loads "[NaN, Infinity, -Infinity]".data =
    .ok (.arr [.nanV, .infV false, .infV true]) := by rfl
example : json_loads "[-Infinitx]".data = .error "Expecting value".data := by rfl
example :
    (process_pdf true "a.pdf".data (some [some "x".data])
      (fun _ => .reply "[NaN]".data)).1 = .error typeErrMsg := by rfl

-- str.strip() removes Unicode whitespace: a no-break-space page is blank,
-- so the run ends in the immediate extract-error with nothing persisted.
example : pyStrip "\xa0\n".data = [] := by decide
example : process_pdf true "a.pdf".data (some [some "\xa0".data])
    (fun _ => .reply "[]".data) =
    (.ok (.extractError ("Failed to extract text from ".data ++ "a.pdf".data)), []) := by rfl
